import Mathlib

/-!
Verification of the Flow Graph Extraction & Noise-Reduction Engine of the
intelligent-user-flow-mapper repository.

The JavaScript sources are shallowly embedded:
  * `noiseReducer.js` (reduceNoise and its helper filters and the scorer),
  * `flowExtractor.js` (extractFlows and the five pattern detectors).
JS arrays become `List`, JS `Map`/`Set` (insertion ordered) become
association lists / lists with membership tests, JS numbers become `Nat`
(scores; every contribution is a non-negative integer) or `ℚ` (confidence
values built from the literals 0.1/0.2/0.3/0.7).  The floating point ratio
comparisons `count/len < 0.9` and `count/len < 0.7` of
`removeGenericFlows` are embedded as the exact integer comparisons
`10*count < 9*len` / `10*count < 7*len`: for every feasible path length
(`len < 10^14`) the double rounding error (≈1e-16) is smaller than the
minimal distance `1/(10*len)` between a representable ratio and the
threshold, so the comparisons agree; for `len = 0` JS compares `NaN`
(false) and the integer form `0 < 0` is false as well.
-/

namespace UserFlowMapper

/-- A link record as produced by the page analyzer / global-nav detector:
`href`, anchor `text`, and `linkType` ("contextual" or "global"; the empty
string models a JS `undefined`, which `buildCompleteGraph` defaults to
"contextual"). -/
structure Link where
  href : String
  text : String
  linkType : String
deriving DecidableEq, Repr

/-- The two link collections of an analyzed page. -/
structure Links where
  contextual : List Link
  global : List Link
deriving DecidableEq, Repr

/-- An analyzed page (`PageNode` of the spec): canonical `url`, classified
`pageType`, display `title`, crawl `depth`, and its outbound links. -/
structure Page where
  url : String
  pageType : String
  title : String
  depth : Nat
  links : Links
deriving DecidableEq, Repr

/-- A flow candidate: `type` (flowType), human readable `name`, the ordered
`path` of URLs, the `score` assigned by the scorer (0 before scoring) and
the `confidence` assigned by some detectors (0 when absent). -/
structure Flow where
  type : String
  name : String
  path : List String
  score : Nat
  confidence : ℚ
deriving DecidableEq, Repr

/-! ## Embedding of noiseReducer.js -/

/-- Resolution of a path URL to a page type, shared verbatim by
`removeGenericFlows` and `scoreAndRankFlows` in the source:
`analyzedPages.find(p => p.url === url)`, defaulting to `'unknown'`. -/
def pageTypeOf (analyzedPages : List Page) (url : String) : String :=
  match analyzedPages.find? (fun p => p.url == url) with
  | some page => page.pageType
  | none => "unknown"

/-- `flow.path.join('→')`, the canonical signature used for deduplication. -/
def pathSignature (flow : Flow) : String :=
  String.intercalate "→" flow.path

/-- The `forEach` loop of `removeDuplicateFlows`: walk the list keeping the
first flow per signature, threading the `seen` set. -/
def dedupGo (seen : List String) : List Flow → List Flow
  | [] => []
  | f :: fs =>
    if pathSignature f ∈ seen then dedupGo seen fs
    else f :: dedupGo (pathSignature f :: seen) fs

/-- `removeDuplicateFlows`: keep only the first flow per exact path
signature. -/
def removeDuplicateFlows (flows : List Flow) : List Flow :=
  dedupGo [] flows

/-- `flow.path.every((url, idx) => otherFlow.path[idx] === url)` for a
strictly shorter `flow.path`: elementwise prefix test. -/
def isPreB : List String → List String → Bool
  | [], _ => true
  | _ :: _, [] => false
  | a :: as, b :: bs => a == b && isPreB as bs

/-- The arrow function inside `removeSubsetFlows`: the flow passes when no
other flow of the input list has a strictly longer path of which this
flow's path is a prefix.  (The JS `flow === otherFlow` early-out is
redundant: identical references have equal path lengths, which already
fail the strict length test.) -/
def subsetPredB (flows : List Flow) (flow : Flow) : Bool :=
  ! flows.any (fun other =>
      decide (flow.path.length < other.path.length) && isPreB flow.path other.path)

/-- `removeSubsetFlows`: drop flows whose path is a strict prefix of some
other input flow's path. -/
def removeSubsetFlows (flows : List Flow) : List Flow :=
  flows.filter (subsetPredB flows)

/-- The arrow function inside `removeGenericFlows`: content-page ratio
below 0.9 for paths of length ≤ 2 and below 0.7 otherwise (see the header
comment for the exact integer rendering of the float comparison). -/
def genericPredB (analyzedPages : List Page) (flow : Flow) : Bool :=
  let pageTypes := flow.path.map (pageTypeOf analyzedPages)
  let contentPageCount := (pageTypes.filter (fun t => t == "content")).length
  if flow.path.length ≤ 2 then
    decide (10 * contentPageCount < 9 * pageTypes.length)
  else
    decide (10 * contentPageCount < 7 * pageTypes.length)

/-- `removeGenericFlows`: reject flows dominated by generic `content`
pages. -/
def removeGenericFlows (flows : List Flow) (analyzedPages : List Page) : List Flow :=
  flows.filter (genericPredB analyzedPages)

/-- The arrow function inside `removeCircularFlows`: the path has as many
distinct URLs (`new Set(flow.path).size`) as entries. -/
def circularPredB (flow : Flow) : Bool :=
  flow.path.dedup.length == flow.path.length

/-- `removeCircularFlows`: keep only duplicate-free paths. -/
def removeCircularFlows (flows : List Flow) : List Flow :=
  flows.filter circularPredB

/-- The score accumulated by `scoreAndRankFlows` for one flow: length score,
page-type diversity, goal-page bonus, flow-type priority and text bonus. -/
def computeScore (analyzedPages : List Page) (flow : Flow) : Nat :=
  let lengthScore := if flow.path.length = 2 then 25 else min (flow.path.length * 10) 50
  let pageTypes := flow.path.map (pageTypeOf analyzedPages)
  let diversityScore := pageTypes.dedup.length * 5
  let goalBonus :=
    if pageTypes.any (fun t => (["checkout", "contact", "login", "signup"] : List String).contains t)
    then 20 else 0
  let typeScore :=
    if flow.type = "ecommerce" then 30
    else if flow.type = "authentication" then 25
    else if flow.type = "support" then 20
    else if flow.type = "navigation" then 15
    else if flow.type = "content" then 10
    else 0
  let textBonus := if flow.path.length > 1 then 5 else 0
  lengthScore + diversityScore + goalBonus + typeScore + textBonus

/-- `{ ...flow, score }`: annotate one flow with its computed score. -/
def scoreFlow (analyzedPages : List Page) (flow : Flow) : Flow :=
  { flow with score := computeScore analyzedPages flow }

/-- The descending-by-score comparison of `scored.sort((a, b) => b.score - a.score)`. -/
def rScore (a b : Flow) : Prop := b.score ≤ a.score

instance : DecidableRel rScore := fun a b => Nat.decLe b.score a.score

instance : IsTotal Flow rScore := ⟨fun a b => Nat.le_total b.score a.score⟩

instance : IsTrans Flow rScore := ⟨fun _ _ _ h1 h2 => Nat.le_trans h2 h1⟩

/-- `scoreAndRankFlows`: score every flow and sort descending by score.
JS `Array.prototype.sort` is a stable sort, embedded as insertion sort. -/
def scoreAndRankFlows (flows : List Flow) (analyzedPages : List Page) : List Flow :=
  List.insertionSort rScore (flows.map (scoreFlow analyzedPages))

/-- `reduceNoise`: deduplicate, drop subset flows, drop generic flows, drop
circular flows, then score and rank — in exactly the source's order. -/
def reduceNoise (rawFlows : List Flow) (analyzedPages : List Page) : List Flow :=
  scoreAndRankFlows
    (removeCircularFlows
      (removeGenericFlows
        (removeSubsetFlows
          (removeDuplicateFlows rawFlows))
        analyzedPages))
    analyzedPages

/-! ## Embedding of flowExtractor.js -/

/-- A graph edge as built by `buildCompleteGraph`: resolved `target` URL,
anchor `text`, the target page's type, and the link class. -/
structure Edge where
  target : String
  text : String
  targetType : String
  linkType : String
deriving DecidableEq, Repr

/-- A graph node: its page, outgoing edges and degree counters. -/
structure GNode where
  page : Page
  edges : List Edge
  inDegree : Nat
  outDegree : Nat
deriving DecidableEq, Repr

/-- The flow graph, a JS `Map` keyed by URL in insertion order. -/
abbrev Graph := List (String × GNode)

/-- `Map.get`: first (unique) entry with the given key. -/
def mapGet (g : Graph) (k : String) : Option GNode :=
  (g.find? (fun kv => kv.1 == k)).map (fun kv => kv.2)

/-- `Map.set`: overwrite in place when the key exists, append otherwise. -/
def mapSet (g : Graph) (k : String) (v : GNode) : Graph :=
  if g.any (fun kv => kv.1 == k) then
    g.map (fun kv => if kv.1 == k then (k, v) else kv)
  else g ++ [(k, v)]

/-- One link of the second pass of `buildCompleteGraph`: when the target is
a known node, push the edge onto the source node and bump both degrees. -/
def addLink (srcUrl : String) (g : Graph) (link : Link) : Graph :=
  match mapGet g link.href with
  | none => g
  | some targetNode =>
    let e : Edge :=
      { target := link.href
        text := link.text
        targetType := targetNode.page.pageType
        linkType := if link.linkType = "" then "contextual" else link.linkType }
    let g1 :=
      match mapGet g srcUrl with
      | some srcNode =>
        mapSet g srcUrl
          { srcNode with edges := srcNode.edges ++ [e], outDegree := srcNode.outDegree + 1 }
      | none => g
    match mapGet g1 link.href with
    | some targetNode1 => mapSet g1 link.href { targetNode1 with inDegree := targetNode1.inDegree + 1 }
    | none => g1

/-- `buildCompleteGraph`: first pass creates one node per page, second pass
adds every (contextual then global) link whose target is a known node. -/
def buildCompleteGraph (analyzedPages : List Page) : Graph :=
  let g0 : Graph :=
    analyzedPages.foldl
      (fun g p => mapSet g p.url { page := p, edges := [], inDegree := 0, outDegree := 0 }) []
  analyzedPages.foldl
    (fun g p =>
      match mapGet g p.url with
      | none => g
      | some _ => (p.links.contextual ++ p.links.global).foldl (addLink p.url) g)
    g0

/-- Character-list prefix test, used for the string operations below (the
kernel cannot reduce the core `String` search primitives). -/
def startsWithB : List Char → List Char → Bool
  | [], _ => true
  | _ :: _, [] => false
  | a :: as, b :: bs => a == b && startsWithB as bs

/-- JS `String.prototype.endsWith`, over the character lists. -/
def strEndsWith (s t : String) : Bool :=
  startsWithB t.data.reverse s.data.reverse

/-- Insertion-ordered `Set.add` for URL lists. -/
def addUrl (l : List String) (u : String) : List String :=
  if u ∈ l then l else l ++ [u]

/-- `identifyEntryPoints`: the explicit start URL (when non-empty, i.e.
truthy), plus every home page, depth-0 page, and shallow directory URL. -/
def identifyEntryPoints (analyzedPages : List Page) (startUrl : String) : List String :=
  let seed := if startUrl ≠ "" then [startUrl] else []
  analyzedPages.foldl
    (fun eps p =>
      if p.pageType = "home" ∨ p.depth = 0 ∨ (strEndsWith p.url "/" = true ∧ p.depth ≤ 1)
      then addUrl eps p.url else eps)
    seed

/-- `findFlowByPageTypes`: depth-first search for a path visiting the given
page types in order; per-branch visited set, first match wins.  The `fuel`
argument makes the recursion structural: every call adds a graph node that
was not in `visited` to `visited`, so the recursion depth is at most
`g.length + 1`, which is what every caller passes. -/
def findFlowByPageTypes (g : Graph) :
    Nat → String → List String → List String → List String → Option (List String)
  | 0, _, _, _, _ => none
  | fuel + 1, startUrl, targetTypes, visited, currentPath =>
    match mapGet g startUrl with
    | none => none
    | some node =>
      if startUrl ∈ visited then none
      else
        let visited' := startUrl :: visited
        let currentPath' := currentPath ++ [startUrl]
        match targetTypes with
        | t :: rest =>
          if node.page.pageType = t then
            if rest = [] then some currentPath'
            else node.edges.findSome? (fun e =>
              findFlowByPageTypes g fuel e.target rest visited' currentPath')
          else node.edges.findSome? (fun e =>
            findFlowByPageTypes g fuel e.target targetTypes visited' currentPath')
        | [] => node.edges.findSome? (fun e =>
            findFlowByPageTypes g fuel e.target [] visited' currentPath')

/-- `findLinearPaths`: follow the unique outgoing edge while the current
node has exactly one stored edge (of any link class); when out-degree is
not 1, emit the accumulated path if it is long enough; a step onto an
already-visited node yields nothing.  Fuel as in `findFlowByPageTypes`. -/
def findLinearPaths (g : Graph) :
    Nat → String → List String → Nat → List String → List (List String)
  | 0, _, _, _, _ => []
  | fuel + 1, startUrl, visited, minLength, currentPath =>
    match mapGet g startUrl with
    | none => []
    | some node =>
      if startUrl ∈ visited then []
      else
        let visited' := startUrl :: visited
        let currentPath' := currentPath ++ [startUrl]
        match node.edges with
        | [e] => findLinearPaths g fuel e.target visited' minLength currentPath'
        | _ => if minLength ≤ currentPath'.length then [currentPath'] else []

/-- `extractEcommerceFlows`: one type-chain search per entry point for the
sequence product-list → product-detail → checkout. -/
def extractEcommerceFlows (g : Graph) (_analyzedPages : List Page)
    (entryPoints : List String) : List Flow :=
  entryPoints.flatMap (fun entryUrl =>
    match findFlowByPageTypes g (g.length + 1) entryUrl
        ["product-list", "product-detail", "checkout"] [] [] with
    | some flow =>
      if 2 ≤ flow.length then
        [{ type := "ecommerce", name := "Product Purchase Flow", path := flow,
           score := 0, confidence := 0 }]
      else []
    | none => [])

/-- `extractAuthFlows`: for each entry point, a 2-step flow to every login
page and every signup page directly linked from it. -/
def extractAuthFlows (g : Graph) (analyzedPages : List Page)
    (entryPoints : List String) : List Flow :=
  entryPoints.flatMap (fun entryUrl =>
    let loginPages := analyzedPages.filter (fun p => p.pageType == "login")
    let signupPages := analyzedPages.filter (fun p => p.pageType == "signup")
    (loginPages.flatMap (fun loginPage =>
      match mapGet g entryUrl with
      | none => []
      | some node =>
        if node.edges.any (fun e => e.target == loginPage.url) then
          [{ type := "authentication", name := "Login Flow",
             path := [entryUrl, loginPage.url], score := 0, confidence := 0 }]
        else []))
    ++
    (signupPages.flatMap (fun signupPage =>
      match mapGet g entryUrl with
      | none => []
      | some node =>
        if node.edges.any (fun e => e.target == signupPage.url) then
          [{ type := "authentication", name := "Signup Flow",
             path := [entryUrl, signupPage.url], score := 0, confidence := 0 }]
        else [])))

/-- `extractSupportFlows`: one type-chain search per entry point for the
sequence support → contact. -/
def extractSupportFlows (g : Graph) (_analyzedPages : List Page)
    (entryPoints : List String) : List Flow :=
  entryPoints.flatMap (fun entryUrl =>
    match findFlowByPageTypes g (g.length + 1) entryUrl ["support", "contact"] [] [] with
    | some flow =>
      if 2 ≤ flow.length then
        [{ type := "support", name := "Support Flow", path := flow,
           score := 0, confidence := 0 }]
      else []
    | none => [])

/-- `extractContentFlows`: linear paths of length at least 3 from each
entry point become content exploration flows. -/
def extractContentFlows (g : Graph) (_analyzedPages : List Page)
    (entryPoints : List String) : List Flow :=
  entryPoints.flatMap (fun entryUrl =>
    ((findLinearPaths g (g.length + 1) entryUrl [] 3 []).filter
        (fun path => decide (3 ≤ path.length))).map
      (fun path =>
        { type := "content", name := "Content Exploration Flow", path := path,
          score := 0, confidence := 0 }))

/-- `extractHubAndSpokeFlows`: each qualifying direct neighbor ("major
section") of an entry point yields a 2-step flow, extended by exactly one
hop along the first outgoing edge of the section when it has one. -/
def extractHubAndSpokeFlows (g : Graph) (analyzedPages : List Page)
    (entryPoints : List String) : List Flow :=
  entryPoints.flatMap (fun entryUrl =>
    match mapGet g entryUrl with
    | none => []
    | some node =>
      let majorSections := node.edges.filter (fun edge =>
        match analyzedPages.find? (fun p => p.url == edge.target) with
        | none => false
        | some targetPage =>
          decide (targetPage.pageType ≠ "content" ∨ 10 < targetPage.title.length ∨
            5 < edge.text.length))
      majorSections.flatMap (fun sec =>
        match analyzedPages.find? (fun p => p.url == sec.target) with
        | none => []
        | some targetPage =>
          let flowName := (if sec.text = "" then targetPage.pageType else sec.text) ++ " Flow"
          let flowPath :=
            match mapGet g sec.target with
            | some sectionNode =>
              match sectionNode.edges with
              | [] => [entryUrl, sec.target]
              | nextStep :: _ => [entryUrl, sec.target, nextStep.target]
            | none => [entryUrl, sec.target]
          [{ type := "navigation", name := flowName, path := flowPath,
             score := 0, confidence := 0 }]))

/-- Total number of stored edges, used to bound the worklist loops. -/
def totalEdges (g : Graph) : Nat :=
  (g.map (fun kv => kv.2.edges.length)).sum

/-- One confidence contribution of `calculateFlowConfidence` for a
consecutive pair of the path. -/
def confidenceStep (g : Graph) (acc : ℚ) (pair : String × String) : ℚ :=
  match mapGet g pair.1 with
  | none => acc
  | some node =>
    match node.edges.find? (fun e => e.target == pair.2) with
    | none => acc
    | some edge =>
      if edge.linkType = "contextual" then acc + 2/10
      else if edge.linkType = "global" then acc + 1/10
      else acc

/-- `calculateFlowConfidence`: length bonus capped at 0.3 plus per-edge
link-class bonuses, clamped to 1. -/
def calculateFlowConfidence (g : Graph) (path : List String) : ℚ :=
  if path.length < 2 then 0
  else
    let base := min (3/10 : ℚ) (path.length * (1/10 : ℚ))
    let total := (path.zip path.tail).foldl (confidenceStep g) base
    min 1 total

/-- The worklist loop of `extractLinearFlows` (JS array used as a LIFO
stack: push/pop at the end, embedded with the top of the stack at the
head).  Every processed item adds a fresh graph node to `visited`, so at
most `g.length` items are ever processed and at most `totalEdges g` items
pushed per processed item; the fuel passed by `extractLinearFlows`
dominates the total number of iterations. -/
def linearLoop (g : Graph) (minLength maxLength : Nat) :
    Nat → List String → List (String × List String) → List Flow → List Flow
  | 0, _, _, flows => flows
  | _ + 1, _, [], flows => flows
  | fuel + 1, visited, (url, path) :: rest, flows =>
    if url ∈ visited ∨ maxLength < path.length then
      linearLoop g minLength maxLength fuel visited rest flows
    else
      let visited' := url :: visited
      match mapGet g url with
      | none => linearLoop g minLength maxLength fuel visited' rest flows
      | some node =>
        let contextualEdges := node.edges.filter (fun e => e.linkType == "contextual")
        if contextualEdges = [] ∧ minLength ≤ path.length then
          linearLoop g minLength maxLength fuel visited' rest
            (flows ++ [{ type := "linear", name := "", path := path, score := 0,
                         confidence := calculateFlowConfidence g path }])
        else
          let rest' := contextualEdges.foldl
            (fun stack e =>
              if e.target ∈ path then stack else (e.target, path ++ [e.target]) :: stack)
            rest
          linearLoop g minLength maxLength fuel visited' rest' flows

/-- `extractLinearFlows` with the caller's options `minLength := 3`
(and default `maxLength := 10`). -/
def extractLinearFlows (g : Graph) (_analyzedPages : List Page)
    (entryPoints : List String) : List Flow :=
  entryPoints.foldl
    (fun flows entryUrl =>
      linearLoop g 3 10 (1 + g.length * (1 + totalEdges g)) [] [(entryUrl, [entryUrl])] flows)
    []

/-- `groupPagesByType`: a JS object keyed by page type, keys in first
occurrence order, `'unknown'` for a falsy (empty) type. -/
def groupPagesByType (pages : List Page) : List (String × List Page) :=
  pages.foldl
    (fun groups p =>
      let t := if p.pageType = "" then "unknown" else p.pageType
      if groups.any (fun kv => kv.1 == t) then
        groups.map (fun kv => if kv.1 == t then (kv.1, kv.2 ++ [p]) else kv)
      else groups ++ [(t, [p])])
    []

/-- The BFS loop of `findConnectedPaths` (FIFO queue; each enqueued URL is
added to `visited` at enqueue time, so at most `totalEdges g` enqueues
happen and the fuel passed below dominates the iteration count). -/
def connectedLoop (g : Graph) (pageUrls : List String) (maxPathLength : Nat) :
    Nat → List String → List (String × List String) → List Flow → List Flow
  | 0, _, _, paths => paths
  | _ + 1, _, [], paths => paths
  | fuel + 1, visited, (url, path) :: rest, paths =>
    match mapGet g url with
    | none => connectedLoop g pageUrls maxPathLength fuel visited rest paths
    | some node =>
      let paths' := pageUrls.foldl
        (fun acc targetUrl =>
          if url = targetUrl ∨ maxPathLength ≤ path.length then acc
          else if node.edges.any (fun e => e.target == targetUrl) then
            acc ++ [{ type := "connected", name := "", path := path ++ [targetUrl],
                      score := 0, confidence := 7/10 }]
          else acc)
        paths
      let next := node.edges.foldl
        (fun (state : List String × List (String × List String)) e =>
          if e.target ∉ state.1 ∧ path.length < maxPathLength then
            (state.1 ++ [e.target], state.2 ++ [(e.target, path ++ [e.target])])
          else state)
        (visited, rest)
      connectedLoop g pageUrls maxPathLength fuel next.1 next.2 paths'

/-- `findConnectedPaths` with its default `maxPathLength := 5`. -/
def findConnectedPaths (g : Graph) (pageUrls : List String) : List Flow :=
  pageUrls.foldl
    (fun paths startUrl =>
      connectedLoop g pageUrls 5 (2 + totalEdges g + g.length) [startUrl]
        [(startUrl, [startUrl])] paths)
    []

/-- `extractCustomFlows`: connected paths between same-typed pages that
have incoming links or more than one outgoing link. -/
def extractCustomFlows (g : Graph) (analyzedPages : List Page)
    (_entryPoints : List String) : List Flow :=
  let flowCandidates := analyzedPages.filter (fun p =>
    match mapGet g p.url with
    | none => false
    | some node => decide (0 < node.inDegree ∨ 1 < node.outDegree))
  let pageGroups := groupPagesByType flowCandidates
  pageGroups.flatMap (fun group =>
    if 1 < group.2.length then findConnectedPaths g (group.2.map (fun p => p.url))
    else [])

/-- `extractCommonPatterns`: dispatch on the pattern type string. -/
def extractCommonPatterns (g : Graph) (analyzedPages : List Page)
    (entryPoints : List String) (patternType : String) : List Flow :=
  if patternType = "ecommerce" then extractEcommerceFlows g analyzedPages entryPoints
  else if patternType = "auth" then extractAuthFlows g analyzedPages entryPoints
  else if patternType = "support" then extractSupportFlows g analyzedPages entryPoints
  else if patternType = "content" then extractContentFlows g analyzedPages entryPoints
  else []

/-- JS `String.prototype.includes`: `needle` occurs as a contiguous
segment of `hay`, over the character lists. -/
def containsB (needle : List Char) : List Char → Bool
  | [] => startsWithB needle []
  | c :: rest => startsWithB needle (c :: rest) || containsB needle rest

/-- The descending-by-confidence comparison of
`uniqueFlows.sort((a, b) => (b.confidence || 0) - (a.confidence || 0))`. -/
def rConf (a b : Flow) : Prop := b.confidence ≤ a.confidence

instance : DecidableRel rConf := fun a b => inferInstanceAs (Decidable (b.confidence ≤ a.confidence))

instance : IsTotal Flow rConf := ⟨fun a b => le_total b.confidence a.confidence⟩

instance : IsTrans Flow rConf := ⟨fun _ _ _ h1 h2 => le_trans h2 h1⟩

/-- The `forEach` loop of `deduplicateFlows`: skip a flow whose signature
was already seen, or whose signature is a strict substring of an already
seen signature (such a flow is skipped without recording its signature). -/
def dedupSubGo (seen : List String) : List Flow → List Flow
  | [] => []
  | f :: fs =>
    let key := pathSignature f
    if key ∈ seen then dedupSubGo seen fs
    else if seen.any (fun existingKey =>
        containsB key.data existingKey.data && existingKey != key) then
      dedupSubGo seen fs
    else f :: dedupSubGo (seen ++ [key]) fs

/-- `deduplicateFlows`: exact-signature and substring-subpath removal, then
a stable sort descending by confidence. -/
def deduplicateFlows (flows : List Flow) : List Flow :=
  List.insertionSort rConf (dedupSubGo [] flows)

/-- `extractFlows` of flowExtractor.js: empty-input guard, graph and entry
point construction, the seven detector calls, then `deduplicateFlows`. -/
def extractFlows (analyzedPages : List Page) (startUrl : String) : List Flow :=
  if analyzedPages.isEmpty then []
  else
    let g := buildCompleteGraph analyzedPages
    let entryPoints0 := identifyEntryPoints analyzedPages startUrl
    let entryPoints :=
      if entryPoints0 = [] ∧ startUrl ≠ "" then [startUrl] else entryPoints0
    let patternBasedFlows :=
      extractCommonPatterns g analyzedPages entryPoints "ecommerce"
      ++ extractCommonPatterns g analyzedPages entryPoints "auth"
      ++ extractCommonPatterns g analyzedPages entryPoints "support"
      ++ extractCommonPatterns g analyzedPages entryPoints "content"
    let structuralFlows :=
      extractHubAndSpokeFlows g analyzedPages entryPoints
      ++ extractLinearFlows g analyzedPages entryPoints
    let customFlows := extractCustomFlows g analyzedPages entryPoints
    deduplicateFlows (patternBasedFlows ++ structuralFlows ++ customFlows)

/-- The JS parameter `analyzedPages` may also be `null`/`undefined`
(falsy), modelled as `none`; `extractFlows` then returns `[]` through the
same guard `if (!analyzedPages || !analyzedPages.length) return []`. -/
def extractFlowsOrNull (analyzedPages : Option (List Page)) (startUrl : String) : List Flow :=
  match analyzedPages with
  | none => []
  | some pages => extractFlows pages startUrl

/-! ## Specification-side definitions and concrete inputs used by the
claim theorems -/

/-- A path is a linear chain of the graph: every node except the last has
exactly one stored outgoing edge (of any link class), and that edge points
at the next node of the path. -/
def chainSeg (g : Graph) : List String → Prop
  | [] => True
  | [_] => True
  | u :: v :: rest =>
    (∃ n e, mapGet g u = some n ∧ n.edges = [e] ∧ e.target = v) ∧ chainSeg g (v :: rest)

/-- The last node of the path exists in the graph and does not have
out-degree one (the walk stopped there because of branching or a dead
end, not because of a revisit). -/
def lastStop (g : Graph) (path : List String) : Prop :=
  ∃ u n, path.getLast? = some u ∧ mapGet g u = some n ∧ n.edges.length ≠ 1

/-- The linear-chain walk exactly as claim C6 words it: from an entry
point, follow contextual edges only while the current node has exactly one
outgoing contextual edge, stop when the contextual out-degree differs from
one or the next node already occurs in the current path. -/
def claimLinearWalk (g : Graph) : Nat → String → List String → List String
  | 0, _, currentPath => currentPath
  | fuel + 1, url, currentPath =>
    let currentPath' := currentPath ++ [url]
    match mapGet g url with
    | none => currentPath'
    | some node =>
      match node.edges.filter (fun e => e.linkType == "contextual") with
      | [e] =>
        if e.target ∈ currentPath' then currentPath'
        else claimLinearWalk g fuel e.target currentPath'
      | _ => currentPath'

/-- The linear-chain (content) matcher as claim C6 describes it: emit the
accumulated walk exactly when its length is at least 3 nodes. -/
def claimContentFlows (g : Graph) (entryPoints : List String) : List Flow :=
  entryPoints.flatMap (fun entryUrl =>
    let path := claimLinearWalk g (g.length + 1) entryUrl []
    if 3 ≤ path.length then
      [{ type := "content", name := "Content Exploration Flow", path := path,
         score := 0, confidence := 0 }]
    else [])

/-- Concrete input for C5: a home page with one contextual link to a
login page.  The direct-adjacency matcher and the hub-and-spoke matcher
both emit the candidate `[home, login]`. -/
def pagesHub : List Page :=
  [ { url := "https://s/", pageType := "home", title := "", depth := 0,
      links := { contextual := [{ href := "https://s/login", text := "", linkType := "contextual" }],
                 global := [] } },
    { url := "https://s/login", pageType := "login", title := "", depth := 1,
      links := { contextual := [], global := [] } } ]

/-- Concrete input for C6: a four-page chain connected exclusively by
global-navigation links, each node with total out-degree one. -/
def pagesChain : List Page :=
  [ { url := "https://t/", pageType := "home", title := "", depth := 0,
      links := { contextual := [],
                 global := [{ href := "https://t/a", text := "", linkType := "global" }] } },
    { url := "https://t/a", pageType := "content", title := "", depth := 1,
      links := { contextual := [],
                 global := [{ href := "https://t/b", text := "", linkType := "global" }] } },
    { url := "https://t/b", pageType := "content", title := "", depth := 2,
      links := { contextual := [],
                 global := [{ href := "https://t/c", text := "", linkType := "global" }] } },
    { url := "https://t/c", pageType := "content", title := "", depth := 3,
      links := { contextual := [], global := [] } } ]

/-- Concrete input for C6: a three-page contextual cycle, each node with
out-degree one. -/
def pagesCycle : List Page :=
  [ { url := "https://u/", pageType := "home", title := "", depth := 0,
      links := { contextual := [{ href := "https://u/a", text := "", linkType := "contextual" }],
                 global := [] } },
    { url := "https://u/a", pageType := "content", title := "", depth := 1,
      links := { contextual := [{ href := "https://u/b", text := "", linkType := "contextual" }],
                 global := [] } },
    { url := "https://u/b", pageType := "content", title := "", depth := 2,
      links := { contextual := [{ href := "https://u/", text := "", linkType := "contextual" }],
                 global := [] } } ]

/-- Concrete flows used by witnesses: a one-step path and a two-step
extension of it. -/
def fShort : Flow :=
  { type := "navigation", name := "a Flow", path := ["https://w/a"], score := 0, confidence := 0 }

/-- Two-step flow extending the path of `fShort`. -/
def fLong : Flow :=
  { type := "navigation", name := "ab Flow", path := ["https://w/a", "https://w/b"],
    score := 0, confidence := 0 }

/-! ## Helper lemmas -/

theorem scoreFlow_path (analyzedPages : List Page) (flow : Flow) :
    (scoreFlow analyzedPages flow).path = flow.path := rfl

theorem scoreFlow_type (analyzedPages : List Page) (flow : Flow) :
    (scoreFlow analyzedPages flow).type = flow.type := rfl

theorem scoreFlow_sig (analyzedPages : List Page) (flow : Flow) :
    pathSignature (scoreFlow analyzedPages flow) = pathSignature flow := rfl

theorem scoreFlow_scoreFlow (analyzedPages : List Page) (flow : Flow) :
    scoreFlow analyzedPages (scoreFlow analyzedPages flow) = scoreFlow analyzedPages flow := rfl

/-- Stability of `orderedInsert` for the descending score order: filtering
at an exact score value commutes with the insertion. -/
theorem filterScore_orderedInsert (s : Nat) (a : Flow) (l : List Flow) :
    (List.orderedInsert rScore a l).filter (fun f => f.score == s) =
      if a.score = s then a :: l.filter (fun f => f.score == s)
      else l.filter (fun f => f.score == s) := by
  induction l with
  | nil =>
    by_cases has : a.score = s <;>
      simp [List.orderedInsert, List.filter_cons, has]
  | cons b t ih =>
    by_cases h : rScore a b
    · by_cases has : a.score = s <;>
        simp [List.orderedInsert, if_pos h, List.filter_cons, has]
    · have hab : a.score < b.score := Nat.lt_of_not_le h
      rw [List.orderedInsert, if_neg h]
      by_cases hbs : b.score = s
      · have has : ¬ a.score = s := by omega
        simp [List.filter_cons, hbs, ih, has]
      · simp [List.filter_cons, hbs, ih]

/-- Stability of the scorer's sort: the flows at any fixed score value
appear in the output exactly as they appear in the input. -/
theorem filterScore_insertionSort (s : Nat) (l : List Flow) :
    (List.insertionSort rScore l).filter (fun f => f.score == s) =
      l.filter (fun f => f.score == s) := by
  induction l with
  | nil => rfl
  | cons a t ih =>
    rw [List.insertionSort, filterScore_orderedInsert, List.filter_cons]
    by_cases has : a.score = s <;> simp [has, ih]

/-- `isPreB` decides the prefix relation. -/
theorem isPreB_iff (l₁ l₂ : List String) : isPreB l₁ l₂ = true ↔ ∃ t, l₁ ++ t = l₂ := by
  induction l₁ generalizing l₂ with
  | nil => simp [isPreB]
  | cons a as ih =>
    cases l₂ with
    | nil => simp [isPreB]
    | cons b bs =>
      simp only [isPreB, Bool.and_eq_true, beq_iff_eq, ih, List.cons_append, List.cons.injEq]
      constructor
      · rintro ⟨rfl, t, rfl⟩; exact ⟨t, rfl, rfl⟩
      · rintro ⟨t, rfl, rfl⟩; exact ⟨rfl, t, rfl⟩

/-! ## Theorems for the claims -/

/-- C8: the Noise Reducer behaves as the fixed-order pipeline
dedup → subset removal → circularity removal → generic-content filter
(followed by the scorer).  The source applies the generic filter before
the circularity filter, but the two pure filters commute, so the claimed
order describes the same function. -/
theorem claim_C8 (rawFlows : List Flow) (analyzedPages : List Page) :
    reduceNoise rawFlows analyzedPages =
      scoreAndRankFlows
        (removeGenericFlows
          (removeCircularFlows
            (removeSubsetFlows
              (removeDuplicateFlows rawFlows)))
          analyzedPages)
        analyzedPages := by
  unfold reduceNoise removeCircularFlows removeGenericFlows
  rw [List.filter_filter, List.filter_filter]
  exact congrArg₂ scoreAndRankFlows
    (List.filter_congr (fun x _ => Bool.and_comm _ _)) rfl

/-- C9: a null page collection and an empty page collection both make the
flow extractor return the empty flow list, and the noise-reduction stage
then produces an empty ranked result. -/
theorem claim_C9 (startUrl : String) (analyzedPages : List Page) :
    extractFlowsOrNull none startUrl = []
    ∧ extractFlows [] startUrl = []
    ∧ reduceNoise (extractFlows [] startUrl) analyzedPages = [] :=
  ⟨rfl, rfl, rfl⟩

/-- C1: the scorer assigns each surviving candidate the score
lengthScore + diversityScore + goalBonus + typeScore + textBonus with the
claimed component values, and the result list is sorted descending by
score with ties retaining their relative input order (the filter at each
fixed score value is preserved). -/
theorem claim_C1 (flows : List Flow) (analyzedPages : List Page) :
    List.Sorted rScore (scoreAndRankFlows flows analyzedPages)
    ∧ (∀ s : Nat,
        (scoreAndRankFlows flows analyzedPages).filter (fun f => f.score == s)
          = (flows.map (scoreFlow analyzedPages)).filter (fun f => f.score == s))
    ∧ (∀ flow : Flow,
        (scoreFlow analyzedPages flow).score =
          (if flow.path.length = 2 then 25 else min (flow.path.length * 10) 50)
          + 5 * (flow.path.map (pageTypeOf analyzedPages)).dedup.length
          + (if ∃ t ∈ flow.path.map (pageTypeOf analyzedPages),
                t = "checkout" ∨ t = "contact" ∨ t = "login" ∨ t = "signup"
             then 20 else 0)
          + (if flow.type = "ecommerce" then 30
             else if flow.type = "authentication" then 25
             else if flow.type = "support" then 20
             else if flow.type = "navigation" then 15
             else if flow.type = "content" then 10
             else 0)
          + (if 1 < flow.path.length then 5 else 0)) := by
  refine ⟨List.sorted_insertionSort rScore _,
    fun s => filterScore_insertionSort s _, fun flow => ?_⟩
  show computeScore analyzedPages flow = _
  unfold computeScore
  have hdiv : (flow.path.map (pageTypeOf analyzedPages)).dedup.length * 5
      = 5 * (flow.path.map (pageTypeOf analyzedPages)).dedup.length := Nat.mul_comm _ _
  have hgoal : ((flow.path.map (pageTypeOf analyzedPages)).any
        (fun t => (["checkout", "contact", "login", "signup"] : List String).contains t) = true)
      ↔ (∃ t ∈ flow.path.map (pageTypeOf analyzedPages),
          t = "checkout" ∨ t = "contact" ∨ t = "login" ∨ t = "signup") := by
    simp [List.any_eq_true]
  simp only [hdiv]
  by_cases hg : ∃ t ∈ flow.path.map (pageTypeOf analyzedPages),
      t = "checkout" ∨ t = "contact" ∨ t = "login" ∨ t = "signup"
  · rw [if_pos (hgoal.mpr hg), if_pos hg]
  · rw [if_neg (fun hb => hg (hgoal.mp hb)), if_neg hg]

/-- Signatures of flows kept by `dedupSubGo` never lie in the seen set. -/
theorem dedupSubGo_sig_not_mem :
    ∀ (l : List Flow) (seen : List String), ∀ f ∈ dedupSubGo seen l,
      pathSignature f ∉ seen := by
  intro l
  induction l with
  | nil => intro seen f hf; simp [dedupSubGo] at hf
  | cons g gs ih =>
    intro seen f hf
    rw [dedupSubGo] at hf
    by_cases h1 : pathSignature g ∈ seen
    · rw [if_pos h1] at hf; exact ih seen f hf
    · rw [if_neg h1] at hf
      by_cases h2 : seen.any (fun existingKey =>
          containsB (pathSignature g).data existingKey.data && existingKey != pathSignature g) = true
      · rw [if_pos h2] at hf; exact ih seen f hf
      · rw [if_neg h2] at hf
        rcases List.mem_cons.mp hf with rfl | hf'
        · exact h1
        · intro hin
          exact ih _ f hf' (List.mem_append_left _ hin)

/-- The flows kept by `dedupSubGo` have pairwise distinct signatures. -/
theorem dedupSubGo_pairwise :
    ∀ (l : List Flow) (seen : List String),
      (dedupSubGo seen l).Pairwise (fun a b => pathSignature a ≠ pathSignature b) := by
  intro l
  induction l with
  | nil => intro seen; simp [dedupSubGo]
  | cons g gs ih =>
    intro seen
    rw [dedupSubGo]
    by_cases h1 : pathSignature g ∈ seen
    · rw [if_pos h1]; exact ih seen
    · rw [if_neg h1]
      by_cases h2 : seen.any (fun existingKey =>
          containsB (pathSignature g).data existingKey.data && existingKey != pathSignature g) = true
      · rw [if_pos h2]; exact ih seen
      · rw [if_neg h2]
        refine List.Pairwise.cons (fun b hb heq => ?_) (ih _)
        have := dedupSubGo_sig_not_mem gs (seen ++ [pathSignature g]) b hb
        exact this (List.mem_append_right _ (by simp [heq]))

/-- C5 counterexample: on the two-page input `pagesHub` the
direct-adjacency matcher and the hub-and-spoke matcher both produce the
candidate `[home, login]`; the concatenation of the detector outputs has
both, but `extractFlows` returns only the first — deduplication does
happen inside the aggregation stage, before the Noise Reducer. -/
theorem claim_C5_counterexample :
    identifyEntryPoints pagesHub "https://s/" = ["https://s/"]
    ∧ (let g := buildCompleteGraph pagesHub
       let eps := ["https://s/"]
       extractCommonPatterns g pagesHub eps "ecommerce"
       ++ extractCommonPatterns g pagesHub eps "auth"
       ++ extractCommonPatterns g pagesHub eps "support"
       ++ extractCommonPatterns g pagesHub eps "content"
       ++ extractHubAndSpokeFlows g pagesHub eps
       ++ extractLinearFlows g pagesHub eps
       ++ extractCustomFlows g pagesHub eps)
      = [{ type := "authentication", name := "Login Flow",
           path := ["https://s/", "https://s/login"], score := 0, confidence := 0 },
         { type := "navigation", name := "login Flow",
           path := ["https://s/", "https://s/login"], score := 0, confidence := 0 }]
    ∧ extractFlows pagesHub "https://s/"
      = [{ type := "authentication", name := "Login Flow",
           path := ["https://s/", "https://s/login"], score := 0, confidence := 0 }] :=
  ⟨by decide, by decide, by decide⟩

/-- C5 amended: the aggregation stage concatenates the seven detector
outputs in detector order but then applies `deduplicateFlows` before the
Noise Reducer: exact-signature dedup, removal of candidates whose
signature is a strict substring of an already kept signature, and a stable
sort descending by confidence.  Its output has pairwise distinct
signatures and is sorted by confidence. -/
theorem claim_C5_amended (analyzedPages : List Page) (startUrl : String) (flows : List Flow) :
    extractFlows analyzedPages startUrl =
      (if analyzedPages.isEmpty then []
       else
         let g := buildCompleteGraph analyzedPages
         let entryPoints0 := identifyEntryPoints analyzedPages startUrl
         let entryPoints :=
           if entryPoints0 = [] ∧ startUrl ≠ "" then [startUrl] else entryPoints0
         deduplicateFlows
           ((extractCommonPatterns g analyzedPages entryPoints "ecommerce"
             ++ extractCommonPatterns g analyzedPages entryPoints "auth"
             ++ extractCommonPatterns g analyzedPages entryPoints "support"
             ++ extractCommonPatterns g analyzedPages entryPoints "content")
            ++ (extractHubAndSpokeFlows g analyzedPages entryPoints
                ++ extractLinearFlows g analyzedPages entryPoints)
            ++ extractCustomFlows g analyzedPages entryPoints))
    ∧ (deduplicateFlows flows).Pairwise (fun a b => pathSignature a ≠ pathSignature b)
    ∧ List.Sorted rConf (deduplicateFlows flows) := by
  refine ⟨rfl, ?_, List.sorted_insertionSort rConf _⟩
  have hperm := List.perm_insertionSort rConf (dedupSubGo [] flows)
  exact ((hperm.pairwise_iff (fun h => (Ne.symm h))).mpr (dedupSubGo_pairwise flows []))

/-- C6 counterexample: the linear-chain matcher of the source follows
stored edges of any link class, not contextual edges only — on
`pagesChain` (a chain of global-navigation links with no contextual link
at all) it emits a four-step flow while the walk described by the claim
emits nothing; and on `pagesCycle` (a contextual cycle) the source emits
nothing while the claimed walk stops at the repeat and emits the
three-step path. -/
theorem claim_C6_counterexample :
    extractContentFlows (buildCompleteGraph pagesChain) pagesChain ["https://t/"]
      = [{ type := "content", name := "Content Exploration Flow",
           path := ["https://t/", "https://t/a", "https://t/b", "https://t/c"],
           score := 0, confidence := 0 }]
    ∧ claimContentFlows (buildCompleteGraph pagesChain) ["https://t/"] = []
    ∧ extractContentFlows (buildCompleteGraph pagesCycle) pagesCycle ["https://u/"] = []
    ∧ claimContentFlows (buildCompleteGraph pagesCycle) ["https://u/"]
      = [{ type := "content", name := "Content Exploration Flow",
           path := ["https://u/", "https://u/a", "https://u/b"],
           score := 0, confidence := 0 }] :=
  ⟨by decide, by decide, by decide, by decide⟩

/-- Extending a linear chain by the unique outgoing edge of its last
node. -/
theorem chainSeg_snoc (g : Graph) (u v : String) (n : GNode) (e : Edge)
    (hn : mapGet g u = some n) (he : n.edges = [e]) (ht : e.target = v) :
    ∀ cur, chainSeg g (cur ++ [u]) → chainSeg g (cur ++ [u, v]) := by
  intro cur
  induction cur with
  | nil => intro _; exact ⟨⟨n, e, hn, he, ht⟩, trivial⟩
  | cons a rest ih =>
    intro h
    cases rest with
    | nil =>
      rcases h with ⟨hlink, _⟩
      exact ⟨hlink, ⟨n, e, hn, he, ht⟩, trivial⟩
    | cons b rest2 =>
      rcases h with ⟨hlink, htail⟩
      exact ⟨hlink, ih htail⟩

/-- Soundness of `findLinearPaths`: every emitted path extends the current
accumulator, is long enough, visits no node twice, is a linear chain of
the graph (each non-final node has exactly one stored outgoing edge,
pointing at the successor), and its last node exists in the graph with
out-degree different from one. -/
theorem findLinearPaths_sound (g : Graph) (minLength : Nat) :
    ∀ (fuel : Nat) (u : String) (visited cur : List String),
      (∀ x ∈ cur, x ∈ visited) → cur.Nodup → chainSeg g (cur ++ [u]) →
      ∀ p ∈ findLinearPaths g fuel u visited minLength cur,
        minLength ≤ p.length ∧ p.Nodup ∧ chainSeg g p ∧ lastStop g p := by
  intro fuel
  induction fuel with
  | zero => intro u visited cur _ _ _ p hp; simp [findLinearPaths] at hp
  | succ n ih =>
    intro u visited cur hsub hnd hchain p hp
    rw [findLinearPaths] at hp
    cases hg : mapGet g u with
    | none => rw [hg] at hp; simp at hp
    | some node =>
      rw [hg] at hp
      dsimp only at hp
      by_cases hv : u ∈ visited
      · rw [if_pos hv] at hp; simp at hp
      · rw [if_neg hv] at hp
        have hnotcur : u ∉ cur := fun hc => hv (hsub u hc)
        have hnd' : (cur ++ [u]).Nodup := by
          simp [List.nodup_append, hnd, hnotcur]
        cases hedges : node.edges with
        | nil =>
          rw [hedges] at hp
          by_cases hlen : minLength ≤ (cur ++ [u]).length
          · rw [if_pos hlen] at hp
            rcases List.mem_singleton.mp hp with rfl
            exact ⟨hlen, hnd', hchain,
              ⟨u, node, List.getLast?_concat cur, hg, by rw [hedges]; simp⟩⟩
          · rw [if_neg hlen] at hp; simp at hp
        | cons e es =>
          cases es with
          | nil =>
            rw [hedges] at hp
            refine ih e.target (u :: visited) (cur ++ [u]) ?_ hnd' ?_ p hp
            · intro x hx
              rcases List.mem_append.mp hx with hx' | hx'
              · exact List.mem_cons_of_mem _ (hsub x hx')
              · rcases List.mem_singleton.mp hx' with rfl
                exact List.mem_cons_self _ _
            · have := chainSeg_snoc g u e.target node e hg hedges rfl cur hchain
              simpa [List.append_assoc] using this
          | cons e2 es2 =>
            rw [hedges] at hp
            by_cases hlen : minLength ≤ (cur ++ [u]).length
            · rw [if_pos hlen] at hp
              rcases List.mem_singleton.mp hp with rfl
              exact ⟨hlen, hnd', hchain,
                ⟨u, node, List.getLast?_concat cur, hg, by rw [hedges]; simp⟩⟩
            · rw [if_neg hlen] at hp; simp at hp

/-- C6 amended: the linear-chain (content) matcher walks forward following
the stored edges of the graph regardless of link class, continuing only
while the current node has exactly one outgoing edge; it emits the
accumulated path exactly when the walk stops at a node whose out-degree
differs from one and the path has at least 3 pairwise distinct nodes — a
walk whose unique outgoing edge leads back to an already visited node
emits nothing. -/
theorem claim_C6_amended (g : Graph) (analyzedPages : List Page)
    (entryPoints : List String) :
    ∀ flow ∈ extractContentFlows g analyzedPages entryPoints,
      flow.type = "content"
      ∧ flow.name = "Content Exploration Flow"
      ∧ 3 ≤ flow.path.length
      ∧ flow.path.Nodup
      ∧ chainSeg g flow.path
      ∧ lastStop g flow.path := by
  intro flow hflow
  rw [extractContentFlows] at hflow
  rcases List.mem_flatMap.mp hflow with ⟨entryUrl, _, hmem⟩
  rcases List.mem_map.mp hmem with ⟨p, hp, rfl⟩
  rcases List.mem_filter.mp hp with ⟨hpraw, hplen⟩
  have hsound := findLinearPaths_sound g 3 (g.length + 1) entryUrl [] []
    (by intro x hx; simp at hx) List.nodup_nil trivial p hpraw
  exact ⟨rfl, rfl, by simpa using hplen, hsound.2.1, hsound.2.2.1, hsound.2.2.2⟩

/-- Witness for the amended C6 theorem at the concrete chain input. -/
theorem claim_C6_amended_witness :
    let g := buildCompleteGraph pagesChain
    let flow : Flow :=
      { type := "content", name := "Content Exploration Flow",
        path := ["https://t/", "https://t/a", "https://t/b", "https://t/c"],
        score := 0, confidence := 0 }
    flow.type = "content"
    ∧ flow.name = "Content Exploration Flow"
    ∧ 3 ≤ flow.path.length
    ∧ flow.path.Nodup
    ∧ chainSeg g flow.path
    ∧ lastStop g flow.path :=
  claim_C6_amended (buildCompleteGraph pagesChain) pagesChain ["https://t/"] _
    (by decide)

/-- Unpacking membership in the Noise Reducer's output: every final flow
is the scored version of a flow that survived the duplicate and subset
filters and satisfies the generic and circularity predicates. -/
theorem reduceNoise_mem (rawFlows : List Flow) (analyzedPages : List Page) {F : Flow}
    (hF : F ∈ reduceNoise rawFlows analyzedPages) :
    ∃ x, x ∈ removeSubsetFlows (removeDuplicateFlows rawFlows)
      ∧ genericPredB analyzedPages x = true
      ∧ circularPredB x = true
      ∧ F = scoreFlow analyzedPages x := by
  rw [reduceNoise, scoreAndRankFlows, List.mem_insertionSort] at hF
  rcases List.mem_map.mp hF with ⟨x, hx, rfl⟩
  rcases List.mem_filter.mp hx with ⟨hx1, hcirc⟩
  rcases List.mem_filter.mp hx1 with ⟨hx2, hgen⟩
  exact ⟨x, hx2, hgen, hcirc, rfl⟩

/-- The subset-removal predicate, propositionally. -/
theorem subsetPredB_iff (flows : List Flow) (flow : Flow) :
    subsetPredB flows flow = true ↔
      ∀ other ∈ flows,
        ¬ (flow.path.length < other.path.length ∧ ∃ t, flow.path ++ t = other.path) := by
  simp [subsetPredB, List.any_eq_true, isPreB_iff, not_and]

/-- Every nonempty list with an element satisfying `p` has a `p`-element of
maximal measure. -/
theorem exists_maximal_measure {α : Type} (meas : α → Nat) (p : α → Prop) :
    ∀ l : List α, (∃ a ∈ l, p a) → ∃ a ∈ l, p a ∧ ∀ b ∈ l, p b → meas b ≤ meas a := by
  intro l
  induction l with
  | nil => rintro ⟨a, ha, _⟩; cases ha
  | cons x xs ih =>
    intro h
    by_cases hx : p x
    · by_cases hxs : ∃ a ∈ xs, p a
      · obtain ⟨a, ha, hpa, hmax⟩ := ih hxs
        by_cases hcmp : meas x ≤ meas a
        · refine ⟨a, List.mem_cons_of_mem _ ha, hpa, ?_⟩
          intro b hb hpb
          rcases List.mem_cons.mp hb with rfl | hb'
          · exact hcmp
          · exact hmax b hb' hpb
        · refine ⟨x, List.mem_cons_self _ _, hx, ?_⟩
          intro b hb hpb
          rcases List.mem_cons.mp hb with rfl | hb'
          · exact le_refl _
          · exact le_trans (hmax b hb' hpb) (le_of_not_le hcmp)
      · refine ⟨x, List.mem_cons_self _ _, hx, ?_⟩
        intro b hb hpb
        rcases List.mem_cons.mp hb with rfl | hb'
        · exact le_refl _
        · exact absurd ⟨b, hb', hpb⟩ hxs
    · obtain ⟨a, ha, hpa⟩ := h
      rcases List.mem_cons.mp ha with rfl | ha'
      · exact absurd hpa hx
      · obtain ⟨a', ha2, hpa2, hmax⟩ := ih ⟨a, ha', hpa⟩
        refine ⟨a', List.mem_cons_of_mem _ ha2, hpa2, ?_⟩
        intro b hb hpb
        rcases List.mem_cons.mp hb with rfl | hb'
        · exact absurd hpb hx
        · exact hmax b hb' hpb

/-- C3: no candidate path of the Noise Reducer's final output is a strict
prefix of another output candidate's path, and `removeSubsetFlows` drops a
candidate exactly when some *surviving* candidate's path strictly extends
its path. -/
theorem claim_C3 :
    (∀ (rawFlows : List Flow) (analyzedPages : List Page),
      ∀ P ∈ reduceNoise rawFlows analyzedPages,
      ∀ Q ∈ reduceNoise rawFlows analyzedPages,
        ¬ (P.path.length < Q.path.length ∧ ∃ t, P.path ++ t = Q.path))
    ∧ (∀ flows : List Flow, ∀ P ∈ flows,
        (P ∉ removeSubsetFlows flows ↔
          ∃ Q ∈ removeSubsetFlows flows,
            P.path.length < Q.path.length ∧ ∃ t, P.path ++ t = Q.path)) := by
  constructor
  · intro rawFlows pages P hP Q hQ hbad
    obtain ⟨x, hxB, _, _, rfl⟩ := reduceNoise_mem rawFlows pages hP
    obtain ⟨y, hyB, _, _, rfl⟩ := reduceNoise_mem rawFlows pages hQ
    rcases List.mem_filter.mp hxB with ⟨_, hxpred⟩
    have hyA : y ∈ removeDuplicateFlows rawFlows :=
      (List.filter_sublist _).subset hyB
    rw [subsetPredB_iff] at hxpred
    exact hxpred y hyA (by simpa [scoreFlow_path] using hbad)
  · intro flows P hP
    constructor
    · intro hnot
      have hpred : ¬ (subsetPredB flows P = true) :=
        fun h => hnot (List.mem_filter.mpr ⟨hP, h⟩)
      rw [subsetPredB_iff] at hpred
      push_neg at hpred
      obtain ⟨Q, hQ, hcond⟩ := hpred
      obtain ⟨R, hR, hcondR, hmax⟩ := exists_maximal_measure (fun f => f.path.length)
        (fun f => P.path.length < f.path.length ∧ ∃ t, P.path ++ t = f.path)
        flows ⟨Q, hQ, hcond⟩
      refine ⟨R, List.mem_filter.mpr ⟨hR, ?_⟩, hcondR⟩
      rw [subsetPredB_iff]
      intro z hz hbad
      obtain ⟨hlz, t₂, happ₂⟩ := hbad
      obtain ⟨hlR, t₁, happ₁⟩ := hcondR
      have hz' : P.path.length < z.path.length ∧ ∃ t, P.path ++ t = z.path :=
        ⟨lt_trans hlR hlz, t₁ ++ t₂, by rw [← List.append_assoc, happ₁, happ₂]⟩
      have := hmax z hz hz'
      omega
    · rintro ⟨Q, hQ, hcond⟩ hPin
      rcases List.mem_filter.mp hPin with ⟨_, hpred⟩
      rw [subsetPredB_iff] at hpred
      exact hpred Q ((List.filter_sublist _).subset hQ) hcond

/-- Witness for C3 at a concrete input: the one-step flow is removed
because the surviving two-step flow strictly extends it. -/
theorem claim_C3_witness : fShort ∉ removeSubsetFlows [fShort, fLong] :=
  (claim_C3.2 [fShort, fLong] fShort (by decide)).mpr
    ⟨fLong, by decide, by decide, ["https://w/b"], rfl⟩

/-- C4: no candidate of the Noise Reducer's final output has a path
containing the same URL twice, for every input flow list (in particular
for hub-and-spoke candidates whose one-hop extension repeats a URL). -/
theorem claim_C4 (rawFlows : List Flow) (analyzedPages : List Page) :
    ∀ F ∈ reduceNoise rawFlows analyzedPages, F.path.Nodup := by
  intro F hF
  obtain ⟨x, _, _, hcirc, rfl⟩ := reduceNoise_mem rawFlows analyzedPages hF
  rw [scoreFlow_path]
  have hlen : x.path.dedup.length = x.path.length := by
    simpa [circularPredB] using hcirc
  have heq := (List.dedup_sublist x.path).eq_of_length hlen
  rw [← heq]
  exact List.nodup_dedup x.path

/-- Witness for C4 at a concrete input. -/
theorem claim_C4_witness : (scoreFlow [] fLong).path.Nodup :=
  claim_C4 [fLong] [] (scoreFlow [] fLong) (by decide)

/-- Rational-threshold reading of the integer comparison used by
`genericPredB`, at the 0.9 threshold. -/
theorem ratio_lt_nine_tenths (c n : Nat) (hn : 0 < n) :
    ((c : ℚ) / (n : ℚ) < 9 / 10) ↔ 10 * c < 9 * n := by
  rw [div_lt_div_iff₀ (by exact_mod_cast hn) (by norm_num : (0 : ℚ) < 10)]
  constructor
  · intro h
    have h' : (c * 10 : Nat) < 9 * n := by exact_mod_cast h
    omega
  · intro h
    have h' : ((c * 10 : Nat) : ℚ) < ((9 * n : Nat) : ℚ) := by exact_mod_cast by omega
    push_cast at h'
    linarith

/-- Rational-threshold reading of the integer comparison used by
`genericPredB`, at the 0.7 threshold. -/
theorem ratio_lt_seven_tenths (c n : Nat) (hn : 0 < n) :
    ((c : ℚ) / (n : ℚ) < 7 / 10) ↔ 10 * c < 7 * n := by
  rw [div_lt_div_iff₀ (by exact_mod_cast hn) (by norm_num : (0 : ℚ) < 10)]
  constructor
  · intro h
    have h' : (c * 10 : Nat) < 7 * n := by exact_mod_cast h
    omega
  · intro h
    have h' : ((c * 10 : Nat) : ℚ) < ((7 * n : Nat) : ℚ) := by exact_mod_cast by omega
    push_cast at h'
    linarith

/-- C7: the generic-content filter resolves the path URLs to page types,
computes the `content` fraction and keeps a candidate unchanged exactly
when the fraction is below the threshold — 0.9 for 2-step flows, 0.7 for
flows of length at least 3. -/
theorem claim_C7 (flows : List Flow) (analyzedPages : List Page) :
    (removeGenericFlows flows analyzedPages).Sublist flows
    ∧ (∀ flow ∈ flows, flow.path.length = 2 →
        (flow ∈ removeGenericFlows flows analyzedPages ↔
          ((((flow.path.map (pageTypeOf analyzedPages)).filter (fun t => t == "content")).length : ℚ)
              / (flow.path.length : ℚ) < 9 / 10)))
    ∧ (∀ flow ∈ flows, 3 ≤ flow.path.length →
        (flow ∈ removeGenericFlows flows analyzedPages ↔
          ((((flow.path.map (pageTypeOf analyzedPages)).filter (fun t => t == "content")).length : ℚ)
              / (flow.path.length : ℚ) < 7 / 10))) := by
  refine ⟨List.filter_sublist _, ?_, ?_⟩
  · intro flow hf hlen
    rw [removeGenericFlows, List.mem_filter,
      ratio_lt_nine_tenths _ _ (by omega)]
    have hpred : genericPredB analyzedPages flow = true ↔
        10 * ((flow.path.map (pageTypeOf analyzedPages)).filter (fun t => t == "content")).length
          < 9 * flow.path.length := by
      have h2 : flow.path.length ≤ 2 := by omega
      simp [genericPredB, h2]
    constructor
    · intro h; exact hpred.mp h.2
    · intro h; exact ⟨hf, hpred.mpr h⟩
  · intro flow hf hlen
    rw [removeGenericFlows, List.mem_filter,
      ratio_lt_seven_tenths _ _ (by omega)]
    have hpred : genericPredB analyzedPages flow = true ↔
        10 * ((flow.path.map (pageTypeOf analyzedPages)).filter (fun t => t == "content")).length
          < 7 * flow.path.length := by
      have h2 : ¬ flow.path.length ≤ 2 := by omega
      simp [genericPredB, h2]
    constructor
    · intro h; exact hpred.mp h.2
    · intro h; exact ⟨hf, hpred.mpr h⟩

/-- Witness for C7: a 2-step flow with content fraction 0 is kept. -/
theorem claim_C7_witness : fLong ∈ removeGenericFlows [fLong] [] :=
  ((claim_C7 [fLong] []).2.1 fLong (by decide) (by decide)).mpr
    (by simp [fLong, pageTypeOf])

/-- Deduplication of a nonempty constant list. -/
theorem dedup_constant (a : String) :
    ∀ l : List String, l ≠ [] → (∀ x ∈ l, x = a) → l.dedup = [a] := by
  intro l
  induction l with
  | nil => intro h; exact absurd rfl h
  | cons x xs ih =>
    intro _ hall
    have hx : x = a := hall x (List.mem_cons_self _ _)
    subst hx
    by_cases hxs : xs = []
    · subst hxs; simp
    · have hall' : ∀ z ∈ xs, z = x := fun z hz => hall z (List.mem_cons_of_mem _ hz)
      have hdx : xs.dedup = [x] := ih hxs hall'
      have hmem : x ∈ xs := by
        have hd : x ∈ xs.dedup := by rw [hdx]; exact List.mem_cons_self _ _
        exact List.mem_dedup.mp hd
      rw [List.dedup_cons_of_mem hmem, hdx]

/-- C10: a path URL with no matching analyzed page resolves to the page
type `'unknown'` in the shared resolution used by the generic filter and
the scorer; such pages never count as `content` (so a nonempty path made
only of unresolvable URLs always passes the generic filter), and
`'unknown'` counts as exactly one distinct page type for the diversity
score. -/
theorem claim_C10 :
    (∀ (analyzedPages : List Page) (url : String),
      (∀ p ∈ analyzedPages, p.url ≠ url) → pageTypeOf analyzedPages url = "unknown")
    ∧ (∀ (flows : List Flow) (analyzedPages : List Page), ∀ flow ∈ flows,
        flow.path ≠ [] →
        (∀ u ∈ flow.path, ∀ p ∈ analyzedPages, p.url ≠ u) →
          (flow.path.map (pageTypeOf analyzedPages)).filter (fun t => t == "content") = []
          ∧ flow ∈ removeGenericFlows flows analyzedPages
          ∧ (flow.path.map (pageTypeOf analyzedPages)).dedup = ["unknown"]) := by
  have hresolve : ∀ (analyzedPages : List Page) (url : String),
      (∀ p ∈ analyzedPages, p.url ≠ url) → pageTypeOf analyzedPages url = "unknown" := by
    intro analyzedPages url h
    rw [pageTypeOf, List.find?_eq_none.mpr]
    intro p hp
    simpa using h p hp
  refine ⟨hresolve, ?_⟩
  intro flows analyzedPages flow hflow hne hunres
  have hall : ∀ t ∈ flow.path.map (pageTypeOf analyzedPages), t = "unknown" := by
    intro t ht
    rcases List.mem_map.mp ht with ⟨u, hu, rfl⟩
    exact hresolve analyzedPages u (hunres u hu)
  have hfilter : (flow.path.map (pageTypeOf analyzedPages)).filter (fun t => t == "content") = [] := by
    rw [List.filter_eq_nil_iff]
    intro t ht
    rw [hall t ht]
    decide
  have hlen : 0 < flow.path.length := List.length_pos.mpr hne
  refine ⟨hfilter, ?_, ?_⟩
  · refine List.mem_filter.mpr ⟨hflow, ?_⟩
    rw [genericPredB]
    simp only [hfilter]
    by_cases h2 : flow.path.length ≤ 2
    · rw [if_pos h2]; simp; omega
    · rw [if_neg h2]; simp; omega
  · refine dedup_constant "unknown" _ ?_ hall
    intro h
    have hl : flow.path.length = 0 := by simpa using congrArg List.length h
    exact hne (List.length_eq_zero.mp hl)

/-- Witness for C10 at a concrete input: both path URLs of `fLong` are
unresolvable against the empty page list. -/
theorem claim_C10_witness :
    (fLong.path.map (pageTypeOf [])).filter (fun t => t == "content") = []
    ∧ fLong ∈ removeGenericFlows [fLong] []
    ∧ (fLong.path.map (pageTypeOf [])).dedup = ["unknown"] :=
  claim_C10.2 [fLong] [] fLong (by decide) (by decide) (by simp)

theorem dedupGo_sublist : ∀ (l : List Flow) (seen : List String), (dedupGo seen l).Sublist l := by
  intro l
  induction l with
  | nil => intro seen; simp [dedupGo]
  | cons f fs ih =>
    intro seen
    rw [dedupGo]
    by_cases h : pathSignature f ∈ seen
    · rw [if_pos h]; exact (ih seen).trans (List.sublist_cons_self f fs)
    · rw [if_neg h]; exact (ih _).cons₂ f

theorem dedupGo_sig_not_mem :
    ∀ (l : List Flow) (seen : List String), ∀ f ∈ dedupGo seen l, pathSignature f ∉ seen := by
  intro l
  induction l with
  | nil => intro seen f hf; simp [dedupGo] at hf
  | cons g gs ih =>
    intro seen f hf
    rw [dedupGo] at hf
    by_cases h : pathSignature g ∈ seen
    · rw [if_pos h] at hf; exact ih seen f hf
    · rw [if_neg h] at hf
      rcases List.mem_cons.mp hf with rfl | hf'
      · exact h
      · intro hin
        exact ih _ f hf' (List.mem_cons_of_mem _ hin)

theorem dedupGo_pairwise :
    ∀ (l : List Flow) (seen : List String),
      (dedupGo seen l).Pairwise (fun a b => pathSignature a ≠ pathSignature b) := by
  intro l
  induction l with
  | nil => intro seen; simp [dedupGo]
  | cons g gs ih =>
    intro seen
    rw [dedupGo]
    by_cases h : pathSignature g ∈ seen
    · rw [if_pos h]; exact ih seen
    · rw [if_neg h]
      refine List.Pairwise.cons (fun b hb heq => ?_) (ih _)
      exact dedupGo_sig_not_mem gs _ b hb (heq ▸ List.mem_cons_self _ _)

theorem dedupGo_eq_self :
    ∀ (l : List Flow) (seen : List String),
      (∀ f ∈ l, pathSignature f ∉ seen) →
      l.Pairwise (fun a b => pathSignature a ≠ pathSignature b) →
      dedupGo seen l = l := by
  intro l
  induction l with
  | nil => intro seen _ _; rfl
  | cons g gs ih =>
    intro seen hseen hpair
    rw [dedupGo, if_neg (hseen g (List.mem_cons_self _ _))]
    rcases List.pairwise_cons.mp hpair with ⟨hhead, htail⟩
    refine congrArg (g :: ·) (ih _ ?_ htail)
    intro f hf
    rw [List.mem_cons]
    rintro (heq | hin)
    · exact hhead f hf heq.symm
    · exact hseen f (List.mem_cons_of_mem _ hf) hin

theorem map_eq_self_of {α : Type} (f : α → α) (l : List α) (h : ∀ x ∈ l, f x = x) :
    l.map f = l := by
  induction l with
  | nil => rfl
  | cons a t ih =>
    rw [List.map_cons, h a (List.mem_cons_self _ _),
      ih (fun x hx => h x (List.mem_cons_of_mem _ hx))]

/-- C2: the Noise Reducer is idempotent — re-running `reduceNoise` on its
own output (with the same analyzed pages) returns that output unchanged:
the output has pairwise distinct signatures, contains no strict-prefix
pair, already satisfies the generic and circularity predicates, carries
exactly the recomputed scores, and is already sorted. -/
theorem claim_C2 (rawFlows : List Flow) (analyzedPages : List Page) :
    reduceNoise (reduceNoise rawFlows analyzedPages) analyzedPages
      = reduceNoise rawFlows analyzedPages := by
  set A := removeDuplicateFlows rawFlows with hA
  set B := removeSubsetFlows A with hB
  set C := removeGenericFlows B analyzedPages with hC
  set D := removeCircularFlows C with hD
  have hEdef : reduceNoise rawFlows analyzedPages
      = List.insertionSort rScore (D.map (scoreFlow analyzedPages)) := rfl
  set E := reduceNoise rawFlows analyzedPages with hE
  have hmemE : ∀ F ∈ E, ∃ x ∈ D, F = scoreFlow analyzedPages x := by
    intro F hF
    rw [hEdef, List.mem_insertionSort] at hF
    rcases List.mem_map.mp hF with ⟨x, hx, rfl⟩
    exact ⟨x, hx, rfl⟩
  have hDC : D.Sublist C := hD ▸ List.filter_sublist C
  have hCB : C.Sublist B := hC ▸ List.filter_sublist B
  have hBA : B.Sublist A := hB ▸ List.filter_sublist A
  have hpairA : A.Pairwise (fun a b => pathSignature a ≠ pathSignature b) :=
    dedupGo_pairwise rawFlows []
  have hpairD : D.Pairwise (fun a b => pathSignature a ≠ pathSignature b) :=
    List.Pairwise.sublist ((hDC.trans hCB).trans hBA) hpairA
  have hpairMap : (D.map (scoreFlow analyzedPages)).Pairwise
      (fun a b => pathSignature a ≠ pathSignature b) := by
    rw [List.pairwise_map]
    exact hpairD.imp (by intro a b h; simpa [scoreFlow_sig] using h)
  have hpermE : E.Perm (D.map (scoreFlow analyzedPages)) :=
    hEdef ▸ List.perm_insertionSort rScore _
  have hpairE : E.Pairwise (fun a b => pathSignature a ≠ pathSignature b) :=
    (hpermE.pairwise_iff (fun h => Ne.symm h)).mpr hpairMap
  have hsortedE : List.Sorted rScore E := hEdef ▸ List.sorted_insertionSort rScore _
  have h1 : removeDuplicateFlows E = E :=
    dedupGo_eq_self E [] (by simp) hpairE
  have h2 : removeSubsetFlows E = E := by
    rw [removeSubsetFlows]
    apply List.filter_eq_self.mpr
    intro F hF
    rw [subsetPredB_iff]
    intro G hG hbad
    obtain ⟨x, hxD, rfl⟩ := hmemE F hF
    obtain ⟨y, hyD, rfl⟩ := hmemE G hG
    have hxB : x ∈ B := hCB.subset (hDC.subset hxD)
    rw [hB, removeSubsetFlows] at hxB
    rcases List.mem_filter.mp hxB with ⟨_, hxpred⟩
    have hyA : y ∈ A := hBA.subset (hCB.subset (hDC.subset hyD))
    rw [subsetPredB_iff] at hxpred
    exact hxpred y hyA (by simpa [scoreFlow_path] using hbad)
  have h3 : removeGenericFlows E analyzedPages = E := by
    rw [removeGenericFlows]
    apply List.filter_eq_self.mpr
    intro F hF
    obtain ⟨x, hxD, rfl⟩ := hmemE F hF
    have hxC : x ∈ C := hDC.subset hxD
    rw [hC, removeGenericFlows] at hxC
    rcases List.mem_filter.mp hxC with ⟨_, hxpred⟩
    exact hxpred
  have h4 : removeCircularFlows E = E := by
    rw [removeCircularFlows]
    apply List.filter_eq_self.mpr
    intro F hF
    obtain ⟨x, hxD, rfl⟩ := hmemE F hF
    rw [hD, removeCircularFlows] at hxD
    rcases List.mem_filter.mp hxD with ⟨_, hxpred⟩
    exact hxpred
  have h5 : E.map (scoreFlow analyzedPages) = E := by
    apply map_eq_self_of
    intro F hF
    obtain ⟨x, _, rfl⟩ := hmemE F hF
    exact scoreFlow_scoreFlow analyzedPages x
  have hstep : reduceNoise E analyzedPages
      = scoreAndRankFlows
          (removeCircularFlows
            (removeGenericFlows (removeSubsetFlows (removeDuplicateFlows E)) analyzedPages))
          analyzedPages := rfl
  rw [hstep, h1, h2, h3, h4, scoreAndRankFlows, h5]
  exact List.Sorted.insertionSort_eq hsortedE

end UserFlowMapper
